import Mathlib

/-!
# Verification of the term-img specification against its source

This file gives a shallow embedding, in Lean 4, of the parts of the
term-img repository that the specification claims talk about:

* `check_dir` (src/term_img/cli.py) — the recursive directory scan that
  builds the tree of directories containing readable images, including its
  working-directory (chdir) protocol, hidden-entry and recursive flags,
  symlink handling and `RecursionError` recovery;
* the tail of `main` (src/term_img/cli.py) — the exit-code /
  TUI hand-off decision, and the per-source classification order
  (URL, then file, then directory);
* `init` (src/term_img/tui/__init__.py) — the `launched` flag protocol;
* `ImageIterator` stepping and `TermImage.from_url` — these two live in
  modules absent from the provided sources, so they are modelled from the
  specification (see the doc comments on those definitions).

Python dictionaries are embedded as association lists (insertion order),
filesystem paths as lists of components, and machine effects (chdir,
stat/listdir failures, the network) as explicit data.
-/

namespace TermImg

/-! ## Directory-scan data model (`check_dir`, src/term_img/cli.py) -/

/-- The two module-level flags read by `check_dir`:
`_RECURSIVE` (from `--recursive`) and `_SHOW_HIDDEN` (from `--all`). -/
structure ScanCfg where
  recursive : Bool
  showHidden : Bool
deriving Repr, DecidableEq

/-- The nested `dict` built by `check_dir`: a mapping (association list,
in insertion order) from entry name to the sub-dict returned by the
recursive call on that entry. -/
inductive FTree where
  | node : List (String × FTree) → FTree
deriving Repr

/-- One entry of a directory listing, as `check_dir` classifies it:

* `file name isImage` — an entry for which `os.path.isfile` is true
  (including symlinks to regular files); `isImage` records whether
  `PIL.Image.open` on it succeeds;
* `dir name canEnter canList sub` — a real (non-link) directory;
  `canEnter` records whether `os.chdir` into it succeeds and `canList`
  whether `os.listdir` inside it succeeds, and `sub` is its listing;
* `link name target canEnter canList sub` — a symbolic link that is not a
  regular file. `target = none` models a broken (or self-referential,
  hence non-existing) link, i.e. `os.path.exists` false; `target = some t`
  models a link whose `os.path.realpath` is the absolute path `t`, with
  `sub` the listing found there. -/
inductive Entry where
  | file (name : String) (isImage : Bool)
  | dir (name : String) (canEnter canList : Bool) (sub : List Entry)
  | link (name : String) (target : Option (List String)) (canEnter canList : Bool)
      (sub : List Entry)
deriving Repr

/-- The `prev_dir` argument of `check_dir`: either the default `".."`
(relative: the parent of the scanned directory) or an absolute path
(`check_dir(entry, os.getcwd())` at the call sites in `check_dir` and
`main`). -/
inductive PathArg where
  | parent
  | abs (p : List String)
deriving Repr

/-- `os.chdir(prev_dir)` interpreted from the working directory `base`. -/
def resolvePath (base : List String) : PathArg → List String
  | PathArg.parent => base.dropLast
  | PathArg.abs p => p

/-- The mutable state of one `check_dir` activation while it loops over
`entries`: the `empty` flag, the `content` dict, the process working
directory, and the list of file entries probed with `PIL.Image.open`
(the probe list instruments the calls the code makes; the code itself
keeps no such list). -/
structure ScanSt where
  empty : Bool
  content : List (String × FTree)
  wd : List String
  probed : List String
deriving Repr

/-- The type of a recursive `check_dir` call:
arguments are `canEnter`, the working directory after a successful
`os.chdir` into the target, `canList`, the target's listing, `prev_dir`,
and the caller's working directory; the result is the returned optional
dict, the working directory after the call, and the probe list of that
activation. -/
abbrev RecFn :=
  Bool → List String → Bool → List Entry → PathArg → List String →
    Option FTree × List String × List String

/-- `entry.startswith(".")` — for the one-character prefix `"."` this is
exactly "the first character is `'.'`" (spelled out on `String.data` so
that it evaluates inside the kernel). -/
def startsWithDot (n : String) : Bool :=
  match n.data with
  | [] => false
  | c :: _ => c = '.'

/-- `entry.startswith(".") and not _SHOW_HIDDEN` — the guard that skips
hidden entries. -/
def hiddenSkip (cfg : ScanCfg) (n : String) : Bool :=
  startsWithDot n && !cfg.showHidden

/-- `content[entry] = result` is executed only `if result is not None`. -/
def childContrib (n : String) (r : Option FTree) : List (String × FTree) :=
  match r with
  | some t => [(n, t)]
  | none => []

/-- The `for entry in entries` loop of `check_dir`
(src/term_img/cli.py lines 56–94).  `rec = none` models an activation at
the host recursion-depth limit: attempting any further recursive call
raises `RecursionError`, which the loop catches and turns into `break`
(returning the state accumulated so far).  `rec = some f` models an
activation that may still recurse, `f` being `check_dir` one level deeper.

* a file entry is probed with `PIL.Image.open` only while `empty` holds,
  and a successful decode clears `empty`;
* a directory entry is recursed into (when `_RECURSIVE`) with the default
  `prev_dir = ".."`;
* a link entry is recursed into only if `os.path.exists(entry)` and not
  `os.getcwd().startswith(os.path.realpath(entry))`, with
  `prev_dir = os.getcwd()` ("return to the link's parent rather than the
  linked directory's parent"); otherwise its result is `None`. -/
def scanLoop (cfg : ScanCfg) (rec : Option RecFn) : List Entry → ScanSt → ScanSt
  | [], st => st
  | Entry.file n img :: rest, st =>
      if hiddenSkip cfg n then scanLoop cfg rec rest st
      else if st.empty then
        scanLoop cfg rec rest
          { st with empty := if img then false else st.empty,
                    probed := st.probed ++ [n] }
      else scanLoop cfg rec rest st
  | Entry.dir n cE cL sub :: rest, st =>
      if hiddenSkip cfg n then scanLoop cfg rec rest st
      else if cfg.recursive then
        match rec with
        | none => st
        | some f =>
            let r := f cE (st.wd ++ [n]) cL sub PathArg.parent st.wd
            scanLoop cfg rec rest
              { st with content := st.content ++ childContrib n r.1, wd := r.2.1 }
      else scanLoop cfg rec rest st
  | Entry.link n tgt cE cL sub :: rest, st =>
      if hiddenSkip cfg n then scanLoop cfg rec rest st
      else if cfg.recursive then
        match tgt with
        | some t =>
            if t.isPrefixOf st.wd then scanLoop cfg rec rest st
            else
              match rec with
              | none => st
              | some f =>
                  let r := f cE t cL sub (PathArg.abs st.wd) st.wd
                  scanLoop cfg rec rest
                    { st with content := st.content ++ childContrib n r.1, wd := r.2.1 }
        | none => scanLoop cfg rec rest st
      else scanLoop cfg rec rest st

/-- The body of `check_dir(dir, prev_dir)` (src/term_img/cli.py lines
35–97), for one activation whose recursion budget is described by `rec`:

* `os.chdir(dir)` failing (`canEnter = false`) logs and returns `None`
  with the working directory unchanged;
* `os.listdir()` failing (`canList = false`) logs and executes
  `return os.chdir(prev_dir)` (which returns `None`);
* otherwise the entry loop runs from `empty = True`, `content = {}`, and
  the function ends with `os.chdir(prev_dir)` and
  `return None if empty and not content else content`. -/
def checkDirGo (cfg : ScanCfg) (rec : Option RecFn) (canEnter : Bool)
    (newWd : List String) (canList : Bool) (sub : List Entry) (prev : PathArg)
    (wd : List String) : Option FTree × List String × List String :=
  if canEnter then
    if canList then
      let st := scanLoop cfg rec sub
        { empty := true, content := [], wd := newWd, probed := [] }
      ( if st.empty && st.content.isEmpty then none else some (FTree.node st.content),
        resolvePath st.wd prev,
        st.probed )
    else (none, resolvePath newWd prev, [])
  else (none, wd, [])

/-- `check_dir` with an explicit recursion-depth budget `fuel`: a call
made with `fuel = 0` cannot recurse further (any attempt raises
`RecursionError` in the caller's loop, modelled by `scanLoop` with
`rec = none`). -/
def checkDir (cfg : ScanCfg) :
    Nat → Bool → List String → Bool → List Entry → PathArg → List String →
      Option FTree × List String × List String
  | 0 => checkDirGo cfg none
  | fuel + 1 => checkDirGo cfg (some (checkDir cfg fuel))

/-- The recursion budget available to child calls at a given fuel. -/
def recOf (cfg : ScanCfg) : Nat → Option RecFn
  | 0 => none
  | fuel + 1 => some (checkDir cfg fuel)

/-! ### Specification-side descriptions of the scan

These are stateless, structurally recursive descriptions of what the scan
computes; the theorems below relate `checkDir` to them. -/

/-- Name of a directory entry. -/
def entryName : Entry → String
  | Entry.file n _ => n
  | Entry.dir n _ _ _ => n
  | Entry.link n _ _ _ _ => n

/-- Whether an entry is a (non-file) directory or symlink entry — the only
entries `check_dir` can ever insert into `content`. -/
def isDirOrLink : Entry → Bool
  | Entry.file _ _ => false
  | Entry.dir _ _ _ _ => true
  | Entry.link _ _ _ _ _ => true

/-- Whether a file entry is a readable (decodable) non-hidden image. -/
def fileImg (cfg : ScanCfg) : Entry → Bool
  | Entry.file n img => !hiddenSkip cfg n && img
  | Entry.dir _ _ _ _ => false
  | Entry.link _ _ _ _ _ => false

mutual

/-- Whether the recursive scan of this entry (a directory or a followed
link), started from working directory `wd`, finds a readable image —
equivalently (proved below), whether `check_dir` on it returns a dict. -/
def scanOk (cfg : ScanCfg) (wd : List String) : Entry → Bool
  | Entry.file _ _ => false
  | Entry.dir n cE cL sub =>
      cfg.recursive && !hiddenSkip cfg n && cE && cL &&
        hasImage cfg (wd ++ [n]) sub
  | Entry.link n tgt cE cL sub =>
      cfg.recursive && !hiddenSkip cfg n &&
        (match tgt with
         | some t => !t.isPrefixOf wd && cE && cL && hasImage cfg t sub
         | none => false)
termination_by e => sizeOf e

/-- Whether a scan of a directory with listing `entries`, performed from
inside it at working directory `wd`, finds a readable image under the
hidden/recursive flags: either a readable non-hidden image file directly
inside, or a non-hidden subdirectory / followed link whose own scan finds
one. -/
def hasImage (cfg : ScanCfg) (wd : List String) : List Entry → Bool
  | [] => false
  | e :: rest => fileImg cfg e || scanOk cfg wd e || hasImage cfg wd rest
termination_by es => sizeOf es

end

/-- The dict a fully resourced scan builds: one key per directory/link
entry whose recursive scan found images, in listing order, mapped to the
dict of that recursive scan. -/
def refContent (cfg : ScanCfg) (wd : List String) : List Entry → List (String × FTree)
  | [] => []
  | Entry.file _ _ :: rest => refContent cfg wd rest
  | Entry.dir n cE cL sub :: rest =>
      (if cfg.recursive && !hiddenSkip cfg n && cE && cL && hasImage cfg (wd ++ [n]) sub
       then [(n, FTree.node (refContent cfg (wd ++ [n]) sub))] else []) ++
        refContent cfg wd rest
  | Entry.link n tgt cE cL sub :: rest =>
      (match tgt with
       | some t =>
           if cfg.recursive && !hiddenSkip cfg n && !t.isPrefixOf wd && cE && cL &&
               hasImage cfg t sub
           then [(n, FTree.node (refContent cfg t sub))] else []
       | none => []) ++ refContent cfg wd rest
termination_by es => sizeOf es

/-- The file entries `check_dir` probes with `PIL.Image.open`: every
non-hidden file entry up to and including the first one that decodes as
an image; files after that first success are not probed. -/
def specProbes (cfg : ScanCfg) : List Entry → List String
  | [] => []
  | Entry.file n img :: rest =>
      if hiddenSkip cfg n then specProbes cfg rest
      else n :: (if img then [] else specProbes cfg rest)
  | Entry.dir _ _ _ _ :: rest => specProbes cfg rest
  | Entry.link _ _ _ _ _ :: rest => specProbes cfg rest

/-- Whether some non-hidden file entry of the listing decodes as an
image (the condition that clears the `empty` flag). -/
def anyFileImg (cfg : ScanCfg) : List Entry → Bool
  | [] => false
  | e :: rest => fileImg cfg e || anyFileImg cfg rest

/-- The recursion budget a scan of `entries` needs in order never to hit
the depth limit: the deepest chain of directory / link entries. -/
def depthE : List Entry → Nat
  | [] => 0
  | Entry.file _ _ :: rest => depthE rest
  | Entry.dir _ _ _ sub :: rest => max (depthE sub + 1) (depthE rest)
  | Entry.link _ _ _ _ sub :: rest => max (depthE sub + 1) (depthE rest)
termination_by es => sizeOf es

/-- The keys of an optional returned dict. -/
def treeKeys : Option FTree → List String
  | none => []
  | some (FTree.node l) => l.map Prod.fst

/-- Reference description of a fully resourced entry loop: the `empty`
flag is cleared iff some non-hidden file decodes, the dict gains exactly
the non-empty subdirectory/link scans, the working directory is
preserved, and the probe list grows by the files probed. -/
def loopOut (cfg : ScanCfg) (entries : List Entry) (st : ScanSt) : ScanSt :=
  { empty := st.empty && !anyFileImg cfg entries,
    content := st.content ++ refContent cfg st.wd entries,
    wd := st.wd,
    probed := st.probed ++ (if st.empty then specProbes cfg entries else []) }

/-- Reference description of a fully resourced `check_dir` call. -/
def checkDirOut (cfg : ScanCfg) (cE : Bool) (nW : List String) (cL : Bool)
    (sub : List Entry) (prev : PathArg) (wd : List String) :
    Option FTree × List String × List String :=
  if cE then
    if cL then
      ( if hasImage cfg nW sub then some (FTree.node (refContent cfg nW sub)) else none,
        resolvePath nW prev,
        specProbes cfg sub )
    else (none, resolvePath nW prev, [])
  else (none, wd, [])

/-! ## Exit codes and the tail of `main` (src/term_img/cli.py) -/

/-- Modelled from the spec: the exit-code enumeration of
`term_img/exit_codes.py` (the module itself is not among the provided
sources): `SUCCESS = 0`, `FAILURE = 1`, `INVALID_SIZE = 2`,
`NO_VALID_SOURCE = 3`. -/
def SUCCESS : Nat := 0

/-- See `SUCCESS`. -/
def FAILURE : Nat := 1

/-- See `SUCCESS`. -/
def INVALID_SIZE : Nat := 2

/-- See `SUCCESS`. -/
def NO_VALID_SOURCE : Nat := 3

/-- An item of the `images` list built by `main`'s source-resolution loop:
a URL or file source contributes an `Image` widget; a directory source
contributes the `scan_dir(...)` generator (not an `Image`). -/
inductive ResolvedSource where
  | image
  | dirIterator
deriving Repr, DecidableEq

/-- What happens inside the `try` block of `main`'s single-image direct
rendering: either `draw_image` completes, or an `InvalidSize` is raised,
or some other `ValueError` is raised. -/
inductive DrawOutcome where
  | ok
  | invalidSize
  | otherValueError
deriving Repr, DecidableEq

/-- `main`'s outcome: return an exit code, or hand control to the TUI via
`tui.init(args, images, contents)`. -/
inductive MainStep where
  | exit (code : Nat)
  | handToTui
deriving Repr, DecidableEq

/-- The tail of `main` (src/term_img/cli.py lines 450–492): with the
resolved `images` list in hand, return `NO_VALID_SOURCE` if it is empty;
if it has exactly one item and that item is an `Image` widget, draw it
directly and return `SUCCESS`, or `INVALID_SIZE` / `FAILURE` when the
draw raises an `InvalidSize` / other `ValueError`; otherwise hand off to
the TUI (after which `main` returns `SUCCESS`). -/
def mainSelect (images : List ResolvedSource) (draw : DrawOutcome) : MainStep :=
  if images.isEmpty then MainStep.exit NO_VALID_SOURCE
  else if images.length = 1 ∧ images.head? = some ResolvedSource.image then
    match draw with
    | DrawOutcome.ok => MainStep.exit SUCCESS
    | DrawOutcome.invalidSize => MainStep.exit INVALID_SIZE
    | DrawOutcome.otherValueError => MainStep.exit FAILURE
  else MainStep.handToTui

/-! ## Per-source classification in `main` (src/term_img/cli.py 398–448) -/

/-- What `main`'s resolution loop observes about one positional source
string: the first three components of `urlparse(source)` (scheme, netloc,
path) and the results of `os.path.isfile` / `os.path.isdir` on it. -/
structure SrcInfo where
  scheme : String
  netloc : String
  path : String
  isfile : Bool
  isdir : Bool
deriving Repr, DecidableEq

/-- The branch of the resolution loop a source falls into. -/
inductive SrcClass where
  | url
  | localFile
  | localDir
  | invalid
deriving Repr, DecidableEq

/-- The branch structure of `main`'s per-source loop:
`if all(urlparse(source)[:3]): ...from_url...
elif os.path.isfile(source): ...from_file...
elif os.path.isdir(source): ...check_dir...
else: log invalid`. -/
def classifySource (s : SrcInfo) : SrcClass :=
  if s.scheme ≠ "" ∧ s.netloc ≠ "" ∧ s.path ≠ "" then SrcClass.url
  else if s.isfile then SrcClass.localFile
  else if s.isdir then SrcClass.localDir
  else SrcClass.invalid

/-! ## `tui.init` and the `launched` flag (src/term_img/tui/__init__.py) -/

/-- Observables of one run of `tui.init`: the value of the module-level
`launched` flag when `loop.run()` starts (`none` if the loop was never
entered), its value after `init` finishes or propagates an error, and
whether an error propagated. -/
structure InitRun where
  launchedAtLoopEntry : Option Bool
  launchedAfter : Bool
  errored : Bool
deriving Repr, DecidableEq

/-- `tui.init` (src/term_img/tui/__init__.py lines 17–54), with the three
places an exception can arise made explicit:

* `failBeforeFlag` — an error while building the widget tree / loop /
  display generator, before `launched = True` is executed;
* `failDisplayer` — an error in `next(main.displayer)`, which the code
  runs after `launched = True` but outside the `try ... finally`;
* `failLoop` — an error inside `main.loop.run()`, whose enclosing
  `finally: launched = False` always executes.

The module-level `launched` starts out `False`. -/
def tuiInit (failBeforeFlag failDisplayer failLoop : Bool) : InitRun :=
  let launched := false
  if failBeforeFlag then { launchedAtLoopEntry := none, launchedAfter := launched, errored := true }
  else
    let launched := true
    if failDisplayer then
      { launchedAtLoopEntry := none, launchedAfter := launched, errored := true }
    else
      let atEntry := some launched
      let launched := false
      { launchedAtLoopEntry := atEntry, launchedAfter := launched, errored := failLoop }

/-! ## `TermImage.from_url` (modelled from the spec)

`term_img/image.py` is not among the provided sources; only its test
(src/tests/test_url.py) is. The model below follows §4.1 of the spec:
"URL construction performs an HTTP GET, validates the URL syntactically
first (malformed URL is a local, fast validation error distinct from a
network failure), raises a not-found error on an HTTP 404-class response,
and raises a codec error if the fetched bytes are not a decodable
image." -/

/-- The syntactic pieces of the URL argument. -/
structure ParsedUrl where
  scheme : String
  host : String
  path : String
deriving Repr, DecidableEq

/-- What the network would answer for this URL, were it fetched. -/
inductive FetchResult where
  | notFound404
  | connFailure
  | ok (decodable : Bool)
deriving Repr, DecidableEq

/-- The distinct error conditions of URL construction:
`ValueError("Invalid URL...")`, `URLNotFoundError`,
`requests.ConnectionError`, `PIL.UnidentifiedImageError`. -/
inductive UrlError where
  | invalidURL
  | urlNotFound
  | connectionError
  | unidentifiedImage
deriving Repr, DecidableEq

/-- Modelled from the spec: `TermImage.from_url` (§4.1; absent
`term_img/image.py`). The result pairs the outcome with the number of
network fetches performed: a syntactically malformed URL (no host) is a
local validation error raised before any network access; otherwise the
URL is fetched once, and a 404-class response raises the not-found error
(distinct from a connection failure), undecodable bytes raise the codec
error unchanged, and a decodable response yields the image. -/
def fromUrl (u : ParsedUrl) (resp : FetchResult) : Except UrlError Unit × Nat :=
  if u.host = "" then (Except.error UrlError.invalidURL, 0)
  else
    match resp with
    | FetchResult.connFailure => (Except.error UrlError.connectionError, 1)
    | FetchResult.notFound404 => (Except.error UrlError.urlNotFound, 1)
    | FetchResult.ok decodable =>
        (if decodable then Except.ok () else Except.error UrlError.unidentifiedImage, 1)

/-! ## `ImageIterator` stepping (modelled from the spec)

`term_image/image.py`'s `ImageIterator` is not among the provided
sources; only its test (src/tests/test_image_iterator.py) is. The model
follows §4.2/§3 of the spec: the iterator owns an internal animator
(generator) that is the sole driver of frame advancement; each step seeks
the underlying image to the next frame (wrapping to frame 0 at the start
of each repeat pass) and renders it; after the last frame of the last
repeat pass the step operation signals exhaustion (`StopIteration`),
resets the image's frame pointer to 0, and releases the animator; once
released, the iterator is permanently exhausted. -/

/-- The underlying animated image as the iterator sees it: a total frame
count and the current frame pointer (`tell()`). -/
structure AnimImg where
  nFrames : Nat
  pos : Nat
deriving Repr, DecidableEq

/-- Iterator state: the image, the repeat count (the claim's case
`R ≥ 1`; the unlimited case `repeat = -1` is not modelled), and the
animator. `animator = some (p, k)` is the live generator about to yield
frame `k` of repeat pass `p`; `animator = none` means the generator has
been exhausted and released. -/
structure IterSt where
  img : AnimImg
  rep : Nat
  animator : Option (Nat × Nat)
deriving Repr, DecidableEq

/-- A fresh iterator over `img` with repeat count `rep`, positioned
before frame 0 of pass 0. -/
def iterNew (img : AnimImg) (rep : Nat) : IterSt :=
  { img := img, rep := rep, animator := some (0, 0) }

/-- Modelled from the spec: one `next()` on the iterator. Returns the
index of the frame rendered for this step (`some k`: the animator seeks
the image to frame `k` and renders it), or `none` for the `StopIteration`
signal. Exhaustion of the final pass resets the frame pointer to 0 and
releases the animator; a released animator signals `StopIteration` on
every subsequent step, leaving the state unchanged. -/
def iterStep (st : IterSt) : Option Nat × IterSt :=
  match st.animator with
  | none => (none, st)
  | some (p, k) =>
      if p < st.rep then
        let img := { st.img with pos := k }
        let nextCur := if k + 1 < img.nFrames then (p, k + 1) else (p + 1, 0)
        (some k, { st with img := img, animator := some nextCur })
      else
        (none, { st with img := { st.img with pos := 0 }, animator := none })

/-- The state after `n` successive steps. -/
def iterRun : Nat → IterSt → IterSt
  | 0, st => st
  | n + 1, st => iterRun n (iterStep st).2

/-! ## Theorems -/

/-! ### Directory-scan lemmas -/

theorem checkDir_eq (cfg : ScanCfg) (fuel : Nat) :
    checkDir cfg fuel = checkDirGo cfg (recOf cfg fuel) := by
  cases fuel <;> rfl

theorem hasImage_cons (cfg : ScanCfg) (wd : List String) (e : Entry)
    (rest : List Entry) :
    hasImage cfg wd (e :: rest) =
      (fileImg cfg e || scanOk cfg wd e || hasImage cfg wd rest) := by
  simp [hasImage]

/-- Every activation of the entry loop leaves the working directory where
it found it, provided each recursive call it makes restores the working
directory to its `prev_dir` argument. -/
theorem scanLoop_wd (cfg : ScanCfg) (rec : Option RecFn)
    (hrec : ∀ f, rec = some f → ∀ cE nW cL sub prev wd,
      (f cE nW cL sub prev wd).2.1 = if cE then resolvePath nW prev else wd) :
    ∀ (entries : List Entry) (st : ScanSt),
      (scanLoop cfg rec entries st).wd = st.wd := by
  intro entries
  induction entries with
  | nil => intro st; rfl
  | cons e rest ih =>
      intro st
      cases e with
      | file n img =>
          by_cases h1 : hiddenSkip cfg n
          · simp [scanLoop, h1, ih]
          · by_cases h2 : st.empty <;> simp [scanLoop, h1, h2, ih]
      | dir n cE cL sub =>
          by_cases h1 : hiddenSkip cfg n
          · simp [scanLoop, h1, ih]
          · by_cases h2 : cfg.recursive
            · cases hr : rec with
              | none => simp [scanLoop, h1, h2, hr]
              | some f =>
                  subst hr
                  have hwd := hrec f rfl cE (st.wd ++ [n]) cL sub PathArg.parent st.wd
                  simp only [scanLoop, h1, h2, if_false, if_true, Bool.not_true,
                    ite_true, ite_false, Bool.false_eq_true, reduceIte]
                  rw [ih]
                  simp only [hwd, resolvePath]
                  cases cE <;> simp
            · simp [scanLoop, h1, h2, ih]
      | link n tgt cE cL sub =>
          by_cases h1 : hiddenSkip cfg n
          · simp [scanLoop, h1, ih]
          · by_cases h2 : cfg.recursive
            · cases tgt with
              | none => simp [scanLoop, h1, h2, ih]
              | some t =>
                  by_cases h3 : t.isPrefixOf st.wd
                  · simp [scanLoop, h1, h2, h3, ih]
                  · cases hr : rec with
                    | none => simp [scanLoop, h1, h2, h3, hr]
                    | some f =>
                        subst hr
                        have hwd := hrec f rfl cE t cL sub (PathArg.abs st.wd) st.wd
                        simp only [scanLoop, h1, h2, h3, if_false, if_true,
                          Bool.not_true, ite_true, ite_false, Bool.false_eq_true,
                          reduceIte]
                        rw [ih]
                        simp only [hwd, resolvePath]
                        cases cE <;> simp
            · simp [scanLoop, h1, h2, ih]

/-- A scan finds an image iff a non-hidden file decodes directly or some
subdirectory/link scan contributes a dict entry. -/
theorem hasImage_eq_anyFileImg_or_content (cfg : ScanCfg) :
    ∀ (entries : List Entry) (wd : List String),
      hasImage cfg wd entries =
        (anyFileImg cfg entries || !(refContent cfg wd entries).isEmpty) := by
  intro entries
  induction entries with
  | nil => intro wd; simp [hasImage, anyFileImg, refContent]
  | cons e rest ih =>
      intro wd
      cases e with
      | file n img =>
          simp only [hasImage_cons, refContent, anyFileImg, scanOk, fileImg, ih]
          simp [Bool.or_comm, Bool.or_left_comm, Bool.or_assoc]
      | dir n cE cL sub =>
          simp only [hasImage_cons, refContent, anyFileImg, scanOk, fileImg, ih]
          by_cases hC : (cfg.recursive && !hiddenSkip cfg n && cE && cL &&
              hasImage cfg (wd ++ [n]) sub) = true
          · simp [hC]
          · simp only [Bool.not_eq_true] at hC
            simp [hC]
      | link n tgt cE cL sub =>
          cases tgt with
          | none =>
              simp only [hasImage_cons, refContent, anyFileImg, scanOk, fileImg, ih]
              simp
          | some t =>
              simp only [hasImage_cons, refContent, anyFileImg, scanOk, fileImg, ih]
              by_cases hC : (cfg.recursive && !hiddenSkip cfg n && !t.isPrefixOf wd &&
                  cE && cL && hasImage cfg t sub) = true
              · simp only [hC, if_true]
                rw [show (cfg.recursive && !hiddenSkip cfg n &&
                    (!t.isPrefixOf wd && cE && cL && hasImage cfg t sub)) = true by
                  simp only [← Bool.and_assoc]
                  simpa [Bool.and_assoc] using hC]
                simp
              · simp only [Bool.not_eq_true] at hC
                simp only [hC, if_false]
                rw [show (cfg.recursive && !hiddenSkip cfg n &&
                    (!t.isPrefixOf wd && cE && cL && hasImage cfg t sub)) = false by
                  simpa [Bool.and_assoc] using hC]
                simp

/-- The keys of the reference dict are exactly the names of the
directory/link entries whose scan found images, in listing order. -/
theorem refContent_keys (cfg : ScanCfg) :
    ∀ (entries : List Entry) (wd : List String),
      (refContent cfg wd entries).map Prod.fst =
        (entries.filter (fun e => scanOk cfg wd e)).map entryName := by
  intro entries
  induction entries with
  | nil => intro wd; simp [refContent]
  | cons e rest ih =>
      intro wd
      cases e with
      | file n img => simp [refContent, scanOk, List.filter_cons, ih]
      | dir n cE cL sub =>
          by_cases hC : (cfg.recursive && !hiddenSkip cfg n && cE && cL &&
              hasImage cfg (wd ++ [n]) sub) = true
          · simp [refContent, scanOk, List.filter_cons, hC, entryName, ih]
          · simp only [Bool.not_eq_true] at hC
            simp [refContent, scanOk, List.filter_cons, hC, ih]
      | link n tgt cE cL sub =>
          cases tgt with
          | none => simp [refContent, scanOk, List.filter_cons, ih]
          | some t =>
              by_cases hC : (cfg.recursive && !hiddenSkip cfg n && !t.isPrefixOf wd &&
                  cE && cL && hasImage cfg t sub) = true
              · have hC' : (cfg.recursive && !hiddenSkip cfg n &&
                    (!t.isPrefixOf wd && cE && cL && hasImage cfg t sub)) = true := by
                  simp only [← Bool.and_assoc]
                  simpa [Bool.and_assoc] using hC
                simp [refContent, scanOk, List.filter_cons, hC, hC', entryName, ih]
              · simp only [Bool.not_eq_true] at hC
                have hC' : (cfg.recursive && !hiddenSkip cfg n &&
                    (!t.isPrefixOf wd && cE && cL && hasImage cfg t sub)) = false := by
                  simpa [Bool.and_assoc] using hC
                simp [refContent, scanOk, List.filter_cons, hC, hC', ih]

/-- A non-hidden readable image file in the listing makes the scan
non-empty. -/
theorem hasImage_of_file_mem (cfg : ScanCfg) (n : String)
    (hh : hiddenSkip cfg n = false) :
    ∀ (entries : List Entry) (wd : List String), Entry.file n true ∈ entries →
      hasImage cfg wd entries = true := by
  intro entries
  induction entries with
  | nil => intro wd h; cases h
  | cons e rest ih =>
      intro wd h
      rcases List.mem_cons.mp h with h | h
      · subst h
        simp [hasImage_cons, fileImg, hh]
      · simp [hasImage_cons, ih wd h]

theorem loopOut_nil (cfg : ScanCfg) (st : ScanSt) : loopOut cfg [] st = st := by
  cases st
  simp [loopOut, anyFileImg, refContent, specProbes]

theorem loopOut_cons_file_hidden (cfg : ScanCfg) (n : String) (img : Bool)
    (rest : List Entry) (st : ScanSt) (h : hiddenSkip cfg n = true) :
    loopOut cfg (Entry.file n img :: rest) st = loopOut cfg rest st := by
  simp [loopOut, anyFileImg, refContent, specProbes, fileImg, h]

theorem loopOut_cons_file_probe (cfg : ScanCfg) (n : String) (img : Bool)
    (rest : List Entry) (st : ScanSt) (h : hiddenSkip cfg n = false)
    (he : st.empty = true) :
    loopOut cfg (Entry.file n img :: rest) st =
      loopOut cfg rest
        { st with empty := if img then false else st.empty,
                  probed := st.probed ++ [n] } := by
  cases img <;>
    simp [loopOut, anyFileImg, refContent, specProbes, fileImg, h, he,
      List.append_assoc]

theorem loopOut_cons_file_nonempty (cfg : ScanCfg) (n : String) (img : Bool)
    (rest : List Entry) (st : ScanSt) (he : st.empty = false) :
    loopOut cfg (Entry.file n img :: rest) st = loopOut cfg rest st := by
  simp [loopOut, anyFileImg, refContent, specProbes, fileImg, he]

theorem loopOut_cons_dir_none (cfg : ScanCfg) (n : String) (cE cL : Bool)
    (sub rest : List Entry) (st : ScanSt)
    (hC : (cfg.recursive && !hiddenSkip cfg n && cE && cL &&
      hasImage cfg (st.wd ++ [n]) sub) = false) :
    loopOut cfg (Entry.dir n cE cL sub :: rest) st = loopOut cfg rest st := by
  simp [loopOut, anyFileImg, refContent, specProbes, fileImg, hC]

theorem loopOut_cons_dir_some (cfg : ScanCfg) (n : String) (cE cL : Bool)
    (sub rest : List Entry) (st : ScanSt)
    (hC : (cfg.recursive && !hiddenSkip cfg n && cE && cL &&
      hasImage cfg (st.wd ++ [n]) sub) = true) :
    loopOut cfg (Entry.dir n cE cL sub :: rest) st =
      loopOut cfg rest
        { st with content :=
            st.content ++ [(n, FTree.node (refContent cfg (st.wd ++ [n]) sub))] } := by
  simp [loopOut, anyFileImg, refContent, specProbes, fileImg, hC, List.append_assoc]

theorem loopOut_cons_link_broken (cfg : ScanCfg) (n : String) (cE cL : Bool)
    (sub rest : List Entry) (st : ScanSt) :
    loopOut cfg (Entry.link n none cE cL sub :: rest) st = loopOut cfg rest st := by
  simp [loopOut, anyFileImg, refContent, specProbes, fileImg]

theorem loopOut_cons_link_none (cfg : ScanCfg) (n : String) (t : List String)
    (cE cL : Bool) (sub rest : List Entry) (st : ScanSt)
    (hC : (cfg.recursive && !hiddenSkip cfg n && !t.isPrefixOf st.wd && cE && cL &&
      hasImage cfg t sub) = false) :
    loopOut cfg (Entry.link n (some t) cE cL sub :: rest) st = loopOut cfg rest st := by
  simp [loopOut, anyFileImg, refContent, specProbes, fileImg, hC]

theorem loopOut_cons_link_some (cfg : ScanCfg) (n : String) (t : List String)
    (cE cL : Bool) (sub rest : List Entry) (st : ScanSt)
    (hC : (cfg.recursive && !hiddenSkip cfg n && !t.isPrefixOf st.wd && cE && cL &&
      hasImage cfg t sub) = true) :
    loopOut cfg (Entry.link n (some t) cE cL sub :: rest) st =
      loopOut cfg rest
        { st with content := st.content ++ [(n, FTree.node (refContent cfg t sub))] } := by
  simp [loopOut, anyFileImg, refContent, specProbes, fileImg, hC, List.append_assoc]

/-- From a characterization of the loop at a given budget, derive the
characterization of a whole `check_dir` call at that budget. -/
theorem checkDir_char_of (cfg : ScanCfg) (fuel : Nat)
    (hloop : ∀ entries st, depthE entries ≤ fuel →
      scanLoop cfg (recOf cfg fuel) entries st = loopOut cfg entries st) :
    ∀ cE nW cL sub prev wd, depthE sub ≤ fuel →
      checkDir cfg fuel cE nW cL sub prev wd = checkDirOut cfg cE nW cL sub prev wd := by
  intro cE nW cL sub prev wd hd
  rw [checkDir_eq]
  cases cE with
  | false => rfl
  | true =>
      cases cL with
      | false => rfl
      | true =>
          show checkDirGo cfg (recOf cfg fuel) true nW true sub prev wd = _
          simp only [checkDirGo, checkDirOut, if_true]
          rw [hloop sub _ hd]
          simp only [loopOut, List.nil_append, Bool.true_and, if_true, ite_true]
          rw [hasImage_eq_anyFileImg_or_content cfg sub nW]
          cases hA : anyFileImg cfg sub <;>
            cases hE : (refContent cfg nW sub).isEmpty <;>
              simp [hA, hE]

/-- The entry loop of a `check_dir` activation whose recursion budget
covers the depth of the listing computes exactly the reference output:
`empty` cleared iff a non-hidden file decodes, the dict extended by the
non-empty subdirectory/link scans, the working directory preserved, and
the probes as described. -/
theorem scanLoop_char (cfg : ScanCfg) :
    ∀ (fuel : Nat) (entries : List Entry) (st : ScanSt), depthE entries ≤ fuel →
      scanLoop cfg (recOf cfg fuel) entries st = loopOut cfg entries st := by
  intro fuel
  induction fuel with
  | zero =>
      intro entries
      induction entries with
      | nil => intro st _; rw [loopOut_nil]; rfl
      | cons e rest ih =>
          intro st hd
          cases e with
          | file n img =>
              have hdrest : depthE rest ≤ 0 := by simpa [depthE] using hd
              cases h1 : hiddenSkip cfg n with
              | true =>
                  rw [loopOut_cons_file_hidden cfg n img rest st h1]
                  simp only [scanLoop, h1, if_true]
                  exact ih st hdrest
              | false =>
                  cases h2 : st.empty with
                  | true =>
                      rw [loopOut_cons_file_probe cfg n img rest st h1 h2]
                      simp only [scanLoop, h1, h2, Bool.false_eq_true, if_false,
                        if_true, ite_true, ite_false]
                      exact ih _ hdrest
                  | false =>
                      rw [loopOut_cons_file_nonempty cfg n img rest st h2]
                      simp only [scanLoop, h1, h2, Bool.false_eq_true, if_false,
                        ite_false]
                      exact ih st hdrest
          | dir n cE cL sub =>
              exfalso
              simp only [depthE, Nat.max_le] at hd
              omega
          | link n tgt cE cL sub =>
              exfalso
              simp only [depthE, Nat.max_le] at hd
              omega
  | succ f ihf =>
      intro entries
      have hchild := checkDir_char_of cfg f ihf
      induction entries with
      | nil => intro st _; rw [loopOut_nil]; rfl
      | cons e rest ih =>
          intro st hd
          cases e with
          | file n img =>
              have hdrest : depthE rest ≤ f + 1 := by simpa [depthE] using hd
              cases h1 : hiddenSkip cfg n with
              | true =>
                  rw [loopOut_cons_file_hidden cfg n img rest st h1]
                  simp only [scanLoop, h1, if_true]
                  exact ih st hdrest
              | false =>
                  cases h2 : st.empty with
                  | true =>
                      rw [loopOut_cons_file_probe cfg n img rest st h1 h2]
                      simp only [scanLoop, h1, h2, Bool.false_eq_true, if_false,
                        if_true, ite_true, ite_false]
                      exact ih _ hdrest
                  | false =>
                      rw [loopOut_cons_file_nonempty cfg n img rest st h2]
                      simp only [scanLoop, h1, h2, Bool.false_eq_true, if_false,
                        ite_false]
                      exact ih st hdrest
          | dir n cE cL sub =>
              have hdsub : depthE sub ≤ f := by
                simp only [depthE, Nat.max_le] at hd
                omega
              have hdrest : depthE rest ≤ f + 1 := by
                simp only [depthE, Nat.max_le] at hd
                omega
              cases h1 : hiddenSkip cfg n with
              | true =>
                  rw [loopOut_cons_dir_none cfg n cE cL sub rest st (by simp [h1])]
                  simp only [scanLoop, h1, if_true]
                  exact ih st hdrest
              | false =>
                  cases h2 : cfg.recursive with
                  | false =>
                      rw [loopOut_cons_dir_none cfg n cE cL sub rest st (by simp [h2])]
                      simp only [scanLoop, h1, h2, Bool.false_eq_true, if_false,
                        ite_false]
                      exact ih st hdrest
                  | true =>
                      have hr := hchild cE (st.wd ++ [n]) cL sub PathArg.parent
                        st.wd hdsub
                      simp only [scanLoop, recOf, h1, h2, Bool.false_eq_true,
                        if_false, if_true, ite_true, ite_false]
                      rw [hr]
                      cases hcE : cE with
                      | false =>
                          rw [loopOut_cons_dir_none cfg n false cL sub rest st
                            (by simp)]
                          simp only [checkDirOut, Bool.false_eq_true, if_false,
                            ite_false, childContrib, List.append_nil]
                          exact ih _ hdrest
                      | true =>
                          cases hcL : cL with
                          | false =>
                              rw [loopOut_cons_dir_none cfg n true false sub rest st
                                (by simp)]
                              simp only [checkDirOut, Bool.false_eq_true, if_false,
                                if_true, ite_true, ite_false, childContrib,
                                List.append_nil, resolvePath, List.dropLast_concat]
                              exact ih _ hdrest
                          | true =>
                              cases hH : hasImage cfg (st.wd ++ [n]) sub with
                              | false =>
                                  rw [loopOut_cons_dir_none cfg n true true sub rest
                                    st (by simp [hH])]
                                  simp only [checkDirOut, hH, Bool.false_eq_true,
                                    if_false, if_true, ite_true, ite_false,
                                    childContrib, List.append_nil, resolvePath,
                                    List.dropLast_concat]
                                  exact ih _ hdrest
                              | true =>
                                  rw [loopOut_cons_dir_some cfg n true true sub rest
                                    st (by simp [h1, h2, hH])]
                                  simp only [checkDirOut, hH, if_true, ite_true,
                                    childContrib, resolvePath, List.dropLast_concat]
                                  exact ih _ hdrest
          | link n tgt cE cL sub =>
              have hdsub : depthE sub ≤ f := by
                simp only [depthE, Nat.max_le] at hd
                omega
              have hdrest : depthE rest ≤ f + 1 := by
                simp only [depthE, Nat.max_le] at hd
                omega
              cases tgt with
              | none =>
                  rw [loopOut_cons_link_broken]
                  cases h1 : hiddenSkip cfg n <;> cases h2 : cfg.recursive <;>
                    · simp only [scanLoop, h1, h2, Bool.false_eq_true, if_true,
                        if_false, ite_true, ite_false]
                      exact ih st hdrest
              | some t =>
                  cases h1 : hiddenSkip cfg n with
                  | true =>
                      rw [loopOut_cons_link_none cfg n t cE cL sub rest st
                        (by simp [h1])]
                      simp only [scanLoop, h1, if_true]
                      exact ih st hdrest
                  | false =>
                      cases h2 : cfg.recursive with
                      | false =>
                          rw [loopOut_cons_link_none cfg n t cE cL sub rest st
                            (by simp [h2])]
                          simp only [scanLoop, h1, h2, Bool.false_eq_true, if_false,
                            ite_false]
                          exact ih st hdrest
                      | true =>
                          cases h3 : t.isPrefixOf st.wd with
                          | true =>
                              rw [loopOut_cons_link_none cfg n t cE cL sub rest st
                                (by simp [h3])]
                              simp only [scanLoop, h1, h2, h3, Bool.false_eq_true,
                                if_false, if_true, ite_true, ite_false]
                              exact ih st hdrest
                          | false =>
                              have hr := hchild cE t cL sub (PathArg.abs st.wd)
                                st.wd hdsub
                              simp only [scanLoop, recOf, h1, h2, h3,
                                Bool.false_eq_true, if_false, if_true, ite_true,
                                ite_false]
                              rw [hr]
                              cases hcE : cE with
                              | false =>
                                  rw [loopOut_cons_link_none cfg n t false cL sub
                                    rest st (by simp)]
                                  simp only [checkDirOut, Bool.false_eq_true,
                                    if_false, ite_false, childContrib,
                                    List.append_nil]
                                  exact ih _ hdrest
                              | true =>
                                  cases hcL : cL with
                                  | false =>
                                      rw [loopOut_cons_link_none cfg n t true false
                                        sub rest st (by simp)]
                                      simp only [checkDirOut, Bool.false_eq_true,
                                        if_false, if_true, ite_true, ite_false,
                                        childContrib, List.append_nil, resolvePath]
                                      exact ih _ hdrest
                                  | true =>
                                      cases hH : hasImage cfg t sub with
                                      | false =>
                                          rw [loopOut_cons_link_none cfg n t true
                                            true sub rest st (by simp [hH])]
                                          simp only [checkDirOut, hH,
                                            Bool.false_eq_true, if_false, if_true,
                                            ite_true, ite_false, childContrib,
                                            List.append_nil, resolvePath]
                                          exact ih _ hdrest
                                      | true =>
                                          rw [loopOut_cons_link_some cfg n t true
                                            true sub rest st
                                            (by simp [h1, h2, h3, hH])]
                                          simp only [checkDirOut, hH, if_true,
                                            ite_true, childContrib, resolvePath]
                                          exact ih _ hdrest

/-- `check_dir` with a recursion budget covering the depth of the listing
computes the reference output. -/
theorem checkDir_char (cfg : ScanCfg) (fuel : Nat) :
    ∀ cE nW cL sub prev wd, depthE sub ≤ fuel →
      checkDir cfg fuel cE nW cL sub prev wd = checkDirOut cfg cE nW cL sub prev wd :=
  checkDir_char_of cfg fuel (scanLoop_char cfg fuel)

/-- C8 core invariant: whenever `os.chdir(dir)` succeeded, `check_dir`
returns with the working directory at `prev_dir` (resolved from the
scanned directory); a call that could not enter leaves it untouched. -/
theorem checkDir_wd (cfg : ScanCfg) :
    ∀ (fuel : Nat) (cE : Bool) (nW : List String) (cL : Bool) (sub : List Entry)
      (prev : PathArg) (wd : List String),
      (checkDir cfg fuel cE nW cL sub prev wd).2.1 =
        if cE then resolvePath nW prev else wd := by
  intro fuel
  induction fuel with
  | zero =>
      intro cE nW cL sub prev wd
      have hwd := scanLoop_wd cfg none (by intro f hf; cases hf) sub
        { empty := true, content := [], wd := nW, probed := [] }
      cases cE with
      | false => rfl
      | true =>
          cases cL with
          | false => rfl
          | true =>
              show (checkDirGo cfg none true nW true sub prev wd).2.1 = _
              simp only [checkDirGo, if_true]
              rw [hwd]

  | succ f ih =>
      intro cE nW cL sub prev wd
      have hwd := scanLoop_wd cfg (some (checkDir cfg f))
        (by intro g hg cE' nW' cL' sub' prev' wd'; cases hg; exact ih cE' nW' cL' sub' prev' wd') sub
        { empty := true, content := [], wd := nW, probed := [] }
      cases cE with
      | false => rfl
      | true =>
          cases cL with
          | false => rfl
          | true =>
              show (checkDirGo cfg (some (checkDir cfg f)) true nW true sub prev wd).2.1 = _
              simp only [checkDirGo, if_true]
              rw [hwd]

/-- C8: for every `check_dir(dir, prev_dir)` call that successfully
entered the directory (`canEnter = true`, landing at `nW`), the working
directory on return equals `prev_dir` — resolved from the entered
directory, so the default `".."` yields the parent of `dir` — regardless
of whether images were found, whether the listing failed (`cL`
arbitrary), and regardless of the recursion budget (`fuel` arbitrary,
covering runs interrupted by a recursion-depth error). -/
theorem c8_wd_restored (cfg : ScanCfg) (fuel : Nat) (nW : List String) (cL : Bool)
    (sub : List Entry) (prev : PathArg) (wd : List String) :
    (checkDir cfg fuel true nW cL sub prev wd).2.1 = resolvePath nW prev
    ∧ (checkDir cfg fuel true nW cL sub PathArg.parent wd).2.1 = nW.dropLast := by
  constructor
  · have h := checkDir_wd cfg fuel true nW cL sub prev wd
    simpa using h
  · have h := checkDir_wd cfg fuel true nW cL sub PathArg.parent wd
    simpa [resolvePath] using h

/-- C2 counterexample: a directory containing exactly one readable image
file (`"a.png"`) yields the non-absent tree `{}` — the readable image
file does **not** appear as an entry of the returned mapping, refuting
the claim that every readable image file directly inside the scanned
directory appears as an entry (in this version, `check_dir` only ever
inserts subdirectory entries into `content`). -/
theorem c2_counterexample :
    (checkDir ⟨false, false⟩ 1 true ["d"] true [Entry.file "a.png" true]
      PathArg.parent []).1 = some (FTree.node [])
    ∧ "a.png" ∉ treeKeys (checkDir ⟨false, false⟩ 1 true ["d"] true
        [Entry.file "a.png" true] PathArg.parent []).1 := by
  constructor
  · rfl
  · rw [show (checkDir ⟨false, false⟩ 1 true ["d"] true [Entry.file "a.png" true]
        PathArg.parent []).1 = some (FTree.node []) from rfl]
    simp [treeKeys]

/-- C2 (amended): for every non-empty scan, the returned tree is a
mapping whose entries are all directory or symlink entries of the scanned
listing (those whose recursive scan found readable images, mapped to
their nested trees); a readable non-hidden image file directly inside the
directory makes the result non-absent but never itself appears as an
entry of the mapping. -/
theorem c2_tree_shape_amended (cfg : ScanCfg) (fuel : Nat) (nW : List String)
    (prev : PathArg) (wd : List String) (sub : List Entry)
    (hfuel : depthE sub ≤ fuel) :
    (∀ k, k ∈ treeKeys (checkDir cfg fuel true nW true sub prev wd).1 →
        ∃ e, e ∈ sub ∧ isDirOrLink e = true ∧ entryName e = k)
    ∧ (∀ n, Entry.file n true ∈ sub → hiddenSkip cfg n = false →
        (checkDir cfg fuel true nW true sub prev wd).1 ≠ none) := by
  have hc := checkDir_char cfg fuel true nW true sub prev wd hfuel
  rw [hc]
  constructor
  · intro k hk
    simp only [checkDirOut, if_true, ite_true] at hk
    cases h : hasImage cfg nW sub with
    | false => rw [h] at hk; simp [treeKeys] at hk
    | true =>
        rw [h] at hk
        simp only [treeKeys, if_true, ite_true] at hk
        rw [refContent_keys] at hk
        rcases List.mem_map.mp hk with ⟨e, he, hname⟩
        have hef := List.mem_filter.mp he
        refine ⟨e, hef.1, ?_, hname⟩
        have hok := hef.2
        cases e with
        | file n' img' => simp [scanOk] at hok
        | dir n' cE' cL' sub' => rfl
        | link n' tgt' cE' cL' sub' => rfl
  · intro n hmem hh
    have himg := hasImage_of_file_mem cfg n hh sub nW hmem
    simp [checkDirOut, himg]

/-- Witness for C2 (amended) at a concrete scan. -/
theorem c2_tree_shape_amended_witness :
    (checkDir ⟨true, false⟩ 1 true ["d"] true [Entry.file "b.png" true]
      PathArg.parent []).1 ≠ none :=
  (c2_tree_shape_amended ⟨true, false⟩ 1 ["d"] PathArg.parent []
      [Entry.file "b.png" true] (by simp [depthE])).2
    "b.png" (by simp) (by decide)

/-- C3: for every fully resourced `check_dir` scan (recursion budget at
least the listing's depth): (1) the files probed with `PIL.Image.open`
are exactly the non-hidden files up to and including the first successful
decode — files after the first success are not probed; (2) the call
returns the absent result `None` exactly when no readable image is found
(recursively, under the hidden/recursive flags); (3) a subdirectory whose
recursive scan found nothing readable is omitted from the parent's
tree. -/
theorem c3_first_probe_and_none (cfg : ScanCfg) (fuel : Nat) (nW : List String)
    (prev : PathArg) (wd : List String) (sub : List Entry)
    (hfuel : depthE sub ≤ fuel) :
    (checkDir cfg fuel true nW true sub prev wd).2.2 = specProbes cfg sub
    ∧ ((checkDir cfg fuel true nW true sub prev wd).1 = none ↔
        hasImage cfg nW sub = false)
    ∧ (∀ n cE cL s, (sub.map entryName).Nodup → Entry.dir n cE cL s ∈ sub →
        hasImage cfg (nW ++ [n]) s = false →
        n ∉ treeKeys (checkDir cfg fuel true nW true sub prev wd).1) := by
  have hc := checkDir_char cfg fuel true nW true sub prev wd hfuel
  rw [hc]
  refine ⟨?_, ?_, ?_⟩
  · simp [checkDirOut]
  · simp only [checkDirOut, if_true, ite_true]
    cases h : hasImage cfg nW sub <;> simp [h]
  · intro n cE cL s hnodup hmem hnoimg hin
    have hsub : n ∈ (refContent cfg nW sub).map Prod.fst := by
      simp only [checkDirOut, if_true, ite_true] at hin
      cases h : hasImage cfg nW sub with
      | false => rw [h] at hin; simp [treeKeys] at hin
      | true => rw [h] at hin; simpa [treeKeys] using hin
    rw [refContent_keys] at hsub
    rcases List.mem_map.mp hsub with ⟨e, he, hname⟩
    have hef := List.mem_filter.mp he
    have heq : e = Entry.dir n cE cL s :=
      List.inj_on_of_nodup_map hnodup hef.1 hmem (by rw [hname]; rfl)
    rw [heq] at hef
    simp [scanOk, hnoimg] at hef

/-- Witness for C3 at a concrete scan: with files `a.txt` (not an image),
`b.png` (image), `c.png` (image), only `a.txt` and `b.png` are probed. -/
theorem c3_first_probe_and_none_witness :
    (checkDir ⟨true, false⟩ 1 true ["d"] true
        [Entry.file "a.txt" false, Entry.file "b.png" true, Entry.file "c.png" true]
        PathArg.parent []).2.2 =
      specProbes ⟨true, false⟩
        [Entry.file "a.txt" false, Entry.file "b.png" true,
          Entry.file "c.png" true] :=
  (c3_first_probe_and_none ⟨true, false⟩ 1 ["d"] PathArg.parent []
      [Entry.file "a.txt" false, Entry.file "b.png" true, Entry.file "c.png" true]
      (by simp [depthE])).1

/-- C4: during a `check_dir` scan, a symlink entry whose target does not
exist, or whose resolved path is an ancestor of (a prefix of, including
equal to) the current working directory — in particular a cyclic or
self-referential link — is not recursed into: the scan of the listing
with the link present equals the scan with the link removed, for every
recursion budget and state, so the cyclic branch is never entered and is
reported zero times (in this embedding `checkDir` is a total function, so
the scan of any such tree terminates by construction). -/
theorem c4_cyclic_link_excluded (cfg : ScanCfg) (rec : Option RecFn) (n : String)
    (tgt : Option (List String)) (cE cL : Bool) (sub rest : List Entry)
    (st : ScanSt)
    (h : tgt = none ∨ ∃ t, tgt = some t ∧ t.isPrefixOf st.wd = true) :
    scanLoop cfg rec (Entry.link n tgt cE cL sub :: rest) st =
      scanLoop cfg rec rest st := by
  rcases h with h | ⟨t, ht, hpre⟩
  · subst h
    cases h1 : hiddenSkip cfg n <;> cases h2 : cfg.recursive <;>
      simp [scanLoop, h1, h2]
  · subst ht
    cases h1 : hiddenSkip cfg n <;> cases h2 : cfg.recursive <;>
      simp [scanLoop, h1, h2, hpre]

/-- Witness for C4: a link resolving to the current working directory
itself is skipped. -/
theorem c4_cyclic_link_excluded_witness :
    scanLoop ⟨true, false⟩ none
        [Entry.link "loop" (some ["d"]) true true [Entry.file "z.png" true],
          Entry.file "ok.png" true]
        ⟨true, [], ["d"], []⟩ =
      scanLoop ⟨true, false⟩ none [Entry.file "ok.png" true] ⟨true, [], ["d"], []⟩ :=
  c4_cyclic_link_excluded ⟨true, false⟩ none "loop" (some ["d"]) true true
    [Entry.file "z.png" true] [Entry.file "ok.png" true] ⟨true, [], ["d"], []⟩
    (Or.inr ⟨["d"], rfl, by decide⟩)

/-- C5 counterexample: when the recursion-depth limit bites at a
directory entry, `check_dir` breaks out of the loop instead of continuing
with the remaining sibling entries: with no remaining budget, scanning
`[dir "a", file "b.png"]` is **not** the same as scanning the remaining
sibling `[file "b.png"]` — the readable sibling image is never probed
(the loop returned the accumulated state at the break), refuting the
claim that scanning continues with the remaining siblings. -/
theorem c5_counterexample :
    scanLoop ⟨true, false⟩ none
        [Entry.dir "a" true true [], Entry.file "b.png" true]
        ⟨true, [], ["d"], []⟩ ≠
      scanLoop ⟨true, false⟩ none [Entry.file "b.png" true] ⟨true, [], ["d"], []⟩ := by
  intro h
  have h2 := congrArg ScanSt.empty h
  rw [show (scanLoop ⟨true, false⟩ none
        [Entry.dir "a" true true [], Entry.file "b.png" true]
        ⟨true, [], ["d"], []⟩).empty = true by decide,
      show (scanLoop ⟨true, false⟩ none [Entry.file "b.png" true]
        ⟨true, [], ["d"], []⟩).empty = false by decide] at h2
  exact absurd h2 (by decide)

/-- C5 (amended): a recursion-depth error while scanning one entry is
recoverable and localized to the erroring directory — the current subtree
is abandoned and the error does not propagate (outer scans carry on with
their own entries) — but, contrary to the claim, the remaining sibling
entries of the directory being scanned are also skipped: the loop breaks,
returning the state accumulated so far.  Conjunct 1: with no remaining
budget the loop on a directory entry returns the accumulated state
unchanged.  Conjunct 2: one level up, a sibling of the erroring directory
is still scanned and reported. -/
theorem c5_recursion_error_localized (cfg : ScanCfg) (n : String) (cE cL : Bool)
    (sub rest : List Entry) (st : ScanSt) (f : Nat) (nA : String) (cEA cLA : Bool)
    (subA : List Entry) (nB : String) (subB : List Entry) (nW : List String)
    (prev : PathArg) (wd : List String)
    (hrec : cfg.recursive = true) (hn : hiddenSkip cfg n = false)
    (hnA : hiddenSkip cfg nA = false) (hnB : hiddenSkip cfg nB = false)
    (hdB : depthE subB ≤ f) (hiB : hasImage cfg (nW ++ [nB]) subB = true) :
    scanLoop cfg none (Entry.dir n cE cL sub :: rest) st = st
    ∧ ∃ l, (checkDir cfg (f + 1) true nW true
          [Entry.dir nA cEA cLA subA, Entry.dir nB true true subB] prev wd).1 =
        some (FTree.node l)
      ∧ (nB, FTree.node (refContent cfg (nW ++ [nB]) subB)) ∈ l := by
  constructor
  · simp [scanLoop, hn, hrec]
  · have hwdA : (checkDir cfg f cEA (nW ++ [nA]) cLA subA PathArg.parent nW).2.1 =
        nW := by
      rw [checkDir_wd]
      cases cEA <;> simp [resolvePath]
    have hB := checkDir_char cfg f true (nW ++ [nB]) true subB PathArg.parent nW hdB
    rw [show checkDir cfg (f + 1) = checkDirGo cfg (some (checkDir cfg f)) from rfl]
    simp only [checkDirGo, if_true, ite_true]
    simp only [scanLoop, hnA, hnB, hrec, Bool.false_eq_true, if_false, if_true,
      ite_true, ite_false]
    rw [hwdA, hB]
    simp only [checkDirOut, hiB, if_true, ite_true, List.nil_append]
    cases hA1 : (checkDir cfg f cEA (nW ++ [nA]) cLA subA PathArg.parent nW).1 with
    | none =>
        simp only [childContrib, List.nil_append]
        refine ⟨[(nB, FTree.node (refContent cfg (nW ++ [nB]) subB))], ?_, ?_⟩
        · simp
        · simp
    | some tA =>
        simp only [childContrib]
        refine ⟨(nA, tA) :: [(nB, FTree.node (refContent cfg (nW ++ [nB]) subB))],
          ?_, ?_⟩
        · simp
        · simp

/-- Witness for C5 (amended) at a concrete configuration. -/
theorem c5_recursion_error_localized_witness :
    scanLoop ⟨true, false⟩ none
        (Entry.dir "a" true true [] :: [Entry.file "b.png" true])
        ⟨true, [], ["d"], []⟩ =
      ⟨true, [], ["d"], []⟩ :=
  (c5_recursion_error_localized ⟨true, false⟩ "a" true true []
      [Entry.file "b.png" true] ⟨true, [], ["d"], []⟩ 0 "x" true true []
      "y" [Entry.file "img.png" true] ["d"] PathArg.parent []
      rfl (by decide) (by decide) (by decide) (by simp [depthE])
      (by simp [hasImage, fileImg, scanOk, hiddenSkip, startsWithDot])).1

/-- C1: for every run of `main`'s outcome selection: an empty resolved
source list returns `NO_VALID_SOURCE` (3); exactly one resolved source
that is a plain image is drawn directly, returning `SUCCESS` (0) on
success, `INVALID_SIZE` (2) on an invalid-size error, `FAILURE` (1) on
any other value error; any other outcome (more than one source, or a
directory among them) hands control to the TUI. -/
theorem c1_main_outcomes (images : List ResolvedSource) (draw : DrawOutcome) :
    (images = [] → mainSelect images draw = MainStep.exit NO_VALID_SOURCE)
    ∧ (images = [ResolvedSource.image] →
        (draw = DrawOutcome.ok → mainSelect images draw = MainStep.exit SUCCESS)
        ∧ (draw = DrawOutcome.invalidSize →
            mainSelect images draw = MainStep.exit INVALID_SIZE)
        ∧ (draw = DrawOutcome.otherValueError →
            mainSelect images draw = MainStep.exit FAILURE))
    ∧ ((1 < images.length ∨ ResolvedSource.dirIterator ∈ images) →
        mainSelect images draw = MainStep.handToTui) := by
  refine ⟨?_, ?_, ?_⟩
  · intro h
    subst h
    rfl
  · intro h
    subst h
    refine ⟨?_, ?_, ?_⟩ <;> intro hd <;> subst hd <;> rfl
  · intro h
    match images, h with
    | [], h => simp at h
    | [ResolvedSource.image], h => simp at h
    | [ResolvedSource.dirIterator], _ => rfl
    | a :: b :: rest, _ =>
        have hne : ¬((a :: b :: rest).length = 1
            ∧ (a :: b :: rest).head? = some ResolvedSource.image) := by
          simp
        simp [mainSelect, hne]

/-- Witness for C1 at concrete inputs. -/
theorem c1_main_outcomes_witness :
    mainSelect [] DrawOutcome.ok = MainStep.exit NO_VALID_SOURCE
    ∧ mainSelect [ResolvedSource.image] DrawOutcome.invalidSize =
        MainStep.exit INVALID_SIZE
    ∧ mainSelect [ResolvedSource.image, ResolvedSource.dirIterator] DrawOutcome.ok =
        MainStep.handToTui :=
  ⟨(c1_main_outcomes [] DrawOutcome.ok).1 rfl,
   ((c1_main_outcomes [ResolvedSource.image] DrawOutcome.invalidSize).2.1 rfl).2.1 rfl,
   (c1_main_outcomes [ResolvedSource.image, ResolvedSource.dirIterator]
      DrawOutcome.ok).2.2 (Or.inl (by decide))⟩

/-- C10: `main` classifies each source in the fixed order URL, then
regular file, then directory: whenever the parsed scheme, netloc and path
are all non-empty the source is taken as a URL — even if a local file or
directory of that name exists (`isfile`/`isdir` arbitrary) — and a source
lands in the file/directory/invalid branches only when the URL test
failed. -/
theorem c10_url_classification_first (s : SrcInfo) :
    (s.scheme ≠ "" → s.netloc ≠ "" → s.path ≠ "" → classifySource s = SrcClass.url)
    ∧ (classifySource s ≠ SrcClass.url →
        s.scheme = "" ∨ s.netloc = "" ∨ s.path = "") := by
  constructor
  · intro h1 h2 h3
    simp [classifySource, h1, h2, h3]
  · intro h
    by_contra hc
    push_neg at hc
    exact h (by simp [classifySource, hc.1, hc.2.1, hc.2.2])

/-- Witness for C10: a well-formed URL that also names an existing local
file and directory is still classified as a URL. -/
theorem c10_url_classification_first_witness :
    classifySource ⟨"https", "example.com", "/python.png", true, true⟩ = SrcClass.url :=
  (c10_url_classification_first ⟨"https", "example.com", "/python.png", true, true⟩).1
    (by decide) (by decide) (by decide)

/-- C9 counterexample: the run of `tui.init` in which `next(main.displayer)`
raises — an error raised after `launched = True`, i.e. after launch —
propagates the error while leaving the `launched` flag `True`, because
that statement sits outside the `try ... finally` that tears the flag
down. This refutes the claim that after every error raised after launch
the flag reads `False`. -/
theorem c9_counterexample :
    (tuiInit false true false).errored = true
    ∧ (tuiInit false true false).launchedAtLoopEntry = none
    ∧ (tuiInit false true false).launchedAfter = true :=
  ⟨rfl, rfl, rfl⟩

/-- C9 (amended): `tui.init` sets `launched` to `True` before entering the
event loop, and on every exit of the loop — returning normally or via an
error raised inside the loop — the flag reads `False` afterwards (an
error before the flag is set also leaves it `False`); however an error in
the initial displayer advance, which runs after the flag is set but
before the loop, propagates with the flag left `True`. -/
theorem c9_launched_flag_amended (failBefore failDisplayer failLoop : Bool) :
    ((tuiInit false false failLoop).launchedAtLoopEntry = some true
      ∧ (tuiInit false false failLoop).launchedAfter = false
      ∧ (tuiInit false false failLoop).errored = failLoop)
    ∧ (tuiInit true failDisplayer failLoop).launchedAfter = false
    ∧ ((tuiInit false true false).launchedAfter = true
        ∧ (tuiInit false true false).errored = true) := by
  cases failBefore <;> cases failDisplayer <;> cases failLoop <;> decide

/-- C7: constructing an image from a URL validates the URL syntactically
before any network access — a malformed URL (no host) raises the local
invalid-URL value error with zero fetches performed; a well-formed URL
answered by an HTTP 404-class response raises the not-found error, which
is distinct from the connection-error condition; fetched bytes that do
not decode raise the codec error unchanged. -/
theorem c7_from_url_validation (u : ParsedUrl) (resp : FetchResult) :
    (u.host = "" → fromUrl u resp = (Except.error UrlError.invalidURL, 0))
    ∧ (u.host ≠ "" →
        fromUrl u FetchResult.notFound404 = (Except.error UrlError.urlNotFound, 1)
        ∧ UrlError.urlNotFound ≠ UrlError.connectionError)
    ∧ (u.host ≠ "" →
        fromUrl u (FetchResult.ok false) =
          (Except.error UrlError.unidentifiedImage, 1)) := by
  refine ⟨?_, ?_, ?_⟩ <;> intro h
  · simp [fromUrl, h]
  · exact ⟨by simp [fromUrl, h], by decide⟩
  · simp [fromUrl, h]

/-- Witness for C7 at concrete inputs. -/
theorem c7_from_url_validation_witness :
    fromUrl ⟨"https", "", "tests/images/python.png"⟩ FetchResult.notFound404 =
      (Except.error UrlError.invalidURL, 0)
    ∧ fromUrl ⟨"https", "raw.githubusercontent.com", "/python.pnge"⟩
        FetchResult.notFound404 = (Except.error UrlError.urlNotFound, 1) :=
  ⟨(c7_from_url_validation ⟨"https", "", "tests/images/python.png"⟩
      FetchResult.notFound404).1 rfl,
   ((c7_from_url_validation ⟨"https", "raw.githubusercontent.com", "/python.pnge"⟩
      FetchResult.notFound404).2.1 (by decide)).1⟩

/-! ### Animation-iterator lemmas (C6) -/

theorem iterRun_succ_back (n : Nat) (st : IterSt) :
    iterRun (n + 1) st = (iterStep (iterRun n st)).2 := by
  induction n generalizing st with
  | zero => rfl
  | succ n ih =>
      show iterRun (n + 1) (iterStep st).2 = _
      rw [ih]
      rfl

/-- State reached after `j ≤ F * R` steps of a fresh iterator: the
animator sits before frame `j % F` of pass `j / F`, and the image's frame
pointer holds the previously rendered frame. -/
theorem iterRun_closed_form (F R pos0 : Nat) (hF : 1 ≤ F) :
    ∀ j, j ≤ F * R → iterRun j (iterNew ⟨F, pos0⟩ R) =
      { img := ⟨F, if j = 0 then pos0 else (j - 1) % F⟩, rep := R,
        animator := some (j / F, j % F) } := by
  intro j
  induction j with
  | zero => intro _; simp [iterRun, iterNew]
  | succ j ih =>
      intro hj
      have hjlt : j < F * R := lt_of_lt_of_le (Nat.lt_succ_self j) hj
      have hstate := ih (le_of_lt hjlt)
      rw [iterRun_succ_back, hstate]
      have hp : j / F < R := by
        rw [Nat.div_lt_iff_lt_mul hF, Nat.mul_comm]
        exact hjlt
      have hr : j % F < F := Nat.mod_lt _ hF
      have hdm : F * (j / F) + j % F = j := Nat.div_add_mod j F
      simp only [iterStep, hp, if_true, if_pos]
      by_cases hwrap : j % F + 1 < F
      · have hmod : (j + 1) % F = j % F + 1 := by
          conv_lhs => rw [← hdm]
          rw [Nat.add_assoc, Nat.mul_add_mod]
          exact Nat.mod_eq_of_lt hwrap
        have hdiv : (j + 1) / F = j / F := by
          conv_lhs => rw [← hdm]
          rw [Nat.add_assoc, Nat.mul_add_div (by omega)]
          rw [Nat.div_eq_of_lt hwrap]
          omega
        simp [hwrap, hmod, hdiv, Nat.succ_sub_one]
      · have hFeq : j % F + 1 = F := by omega
        have hmod : (j + 1) % F = 0 := by
          conv_lhs => rw [← hdm]
          rw [Nat.add_assoc, hFeq, ← Nat.mul_succ]
          exact Nat.mul_mod_right F _
        have hdiv : (j + 1) / F = j / F + 1 := by
          conv_lhs => rw [← hdm]
          rw [Nat.add_assoc, hFeq, ← Nat.mul_succ]
          exact Nat.mul_div_cancel_left _ (by omega)
        simp [hwrap, hmod, hdiv, Nat.succ_sub_one]

theorem iterStep_exhausted_fix (st : IterSt) (h : st.animator = none) :
    iterStep st = (none, st) := by
  simp [iterStep, h]

theorem iterRun_exhausted_fix (st : IterSt) (h : st.animator = none) :
    ∀ m, iterRun m st = st := by
  intro m
  induction m with
  | zero => rfl
  | succ m ih => rw [iterRun_succ_back, ih, iterStep_exhausted_fix st h]

/-- C6: for an animation iterator over an animated image (frame count
`F ≥ 2`) with repeat count `R ≥ 1`: each of the first `F * R` steps
renders a frame; the step after the last frame of the last repeat pass
signals exhaustion (`StopIteration`), resets the image's frame pointer
(`tell()`) to 0, and releases the animator; and every subsequent step
signals exhaustion again with the state unchanged (the end state is
sticky). -/
theorem c6_iterator_exhaustion (F R pos0 : Nat) (hF : 2 ≤ F) (hR : 1 ≤ R) :
    (∀ j, j < F * R →
      (iterStep (iterRun j (iterNew ⟨F, pos0⟩ R))).1 = some (j % F))
    ∧ (iterStep (iterRun (F * R) (iterNew ⟨F, pos0⟩ R))).1 = none
    ∧ (iterStep (iterRun (F * R) (iterNew ⟨F, pos0⟩ R))).2.img.pos = 0
    ∧ (iterStep (iterRun (F * R) (iterNew ⟨F, pos0⟩ R))).2.animator = none
    ∧ (∀ m, (iterStep (iterRun m
        (iterStep (iterRun (F * R) (iterNew ⟨F, pos0⟩ R))).2)).1 = none) := by
  have hF1 : 1 ≤ F := by omega
  have hend := iterRun_closed_form F R pos0 hF1 (F * R) le_rfl
  have hdivFR : F * R / F = R := Nat.mul_div_cancel_left R (by omega)
  have hmodFR : F * R % F = 0 := Nat.mul_mod_right F R
  have hstepEnd : iterStep (iterRun (F * R) (iterNew ⟨F, pos0⟩ R)) =
      (none, { img := ⟨F, 0⟩, rep := R,
               animator := none }) := by
    rw [hend]
    simp [iterStep, hdivFR, hmodFR]
  refine ⟨?_, ?_, ?_, ?_, ?_⟩
  · intro j hj
    have hstate := iterRun_closed_form F R pos0 hF1 j (le_of_lt hj)
    have hp : j / F < R := by
      rw [Nat.div_lt_iff_lt_mul hF1, Nat.mul_comm]
      exact hj
    rw [hstate]
    simp [iterStep, hp]
  · rw [hstepEnd]
  · rw [hstepEnd]
  · rw [hstepEnd]
  · intro m
    rw [hstepEnd]
    rw [iterRun_exhausted_fix _ rfl m]
    rfl

/-- Witness for C6 at `F = 2`, `R = 1`. -/
theorem c6_iterator_exhaustion_witness :
    (iterStep (iterRun (2 * 1) (iterNew ⟨2, 0⟩ 1))).1 = none :=
  (c6_iterator_exhaustion 2 1 0 (by decide) (by decide)).2.1

end TermImg
